import Mathlib

/-
  Verification development for the build-your-own-redis server
  (src/buffer.cpp, src/buffer.h, src/server.cpp).

  The C++ sources are shallowly embedded as executable Lean definitions:
  machine integers become Nat (sizes, byte values) or Int (signed command
  arguments), raw memory becomes a total function Nat -> Nat (each cell one
  byte), and byte strings become lists of Nat.  Definitions keep the names
  of the C++ functions they translate; each doc comment points back to the
  source location.
-/

/-! ## Byte-level helpers -/

/-- Little-endian byte list of the low 32 bits of a number; models the raw
memcpy of a uint32_t on a little-endian host (spec section 9: host order). -/
def u32le (n : Nat) : List Nat :=
  [n % 256, n / 256 % 256, n / 65536 % 256, n / 16777216 % 256]

/-- Assemble four bytes (little-endian) into a number; models memcpy from a
byte buffer into a uint32_t. -/
def le32 (l : List Nat) : Nat :=
  l.getD 0 0 + 256 * l.getD 1 0 + 65536 * l.getD 2 0 + 16777216 * l.getD 3 0

/-- Bytes of a C++ std::string, one Nat per char (the sources only ever
store ASCII, for which Char.toNat is the byte value). -/
def str_bytes (s : String) : List Nat := s.data.map Char.toNat

/-- Model of memcpy(d + off, src, src.length): overwrite the cells
[off, off + src.length) of the byte store d with the bytes of src. -/
def write_bytes (d : Nat → Nat) (off : Nat) (src : List Nat) : Nat → Nat :=
  fun i => if off ≤ i ∧ i < off + src.length then src.getD (i - off) 0 else d i

/-- List of the n bytes of the store d starting at offset off (the source of
a memcpy out of the buffer). -/
def read_range (d : Nat → Nat) (off n : Nat) : List Nat :=
  (List.range n).map (fun j => d (off + j))

/-! ## The RingBuffer (src/buffer.cpp)

The class Buffer has fields head, tail, capacity, _size and a byte array
data of `capacity` cells.  The array is modelled as a total function
Nat → Nat; cells outside [0, capacity) are junk that the C++ could not
even address, and freshly allocated cells (uninitialized in C++) are 0. -/

structure Buffer where
  head : Nat
  tail : Nat
  capacity : Nat
  size : Nat
  data : Nat → Nat

/-- Buffer::Buffer(size_t capacity) — head = tail = _size = 0, fresh array
(buffer.cpp lines 4-10). -/
def Buffer.new (capacity : Nat) : Buffer :=
  { head := 0, tail := 0, capacity := capacity, size := 0, data := fun _ => 0 }

/-- Buffer::resize(size_t new_capacity) — copy the stored bytes to the front
of a fresh array, set head = 0, tail = _size, capacity = new_capacity
(buffer.cpp lines 61-75).  The two memcpy calls of the source are written
out as the function they produce. -/
def Buffer.resize (b : Buffer) (new_capacity : Nat) : Buffer :=
  let new_data : Nat → Nat :=
    if b.head < b.tail then
      -- memcpy(new_data, data + head, _size)
      fun i => if i < b.size then b.data (b.head + i) else 0
    else
      -- right = capacity - head; memcpy(new_data, data + head, right);
      -- memcpy(new_data + right, data, tail)
      let right := b.capacity - b.head
      fun i =>
        if i < right then b.data (b.head + i)
        else if i < right + b.tail then b.data (i - right)
        else 0
  { head := 0, tail := b.size, capacity := new_capacity, size := b.size,
    data := new_data }

/-- Buffer::append(const uint8_t *data, size_t len) — grow when
len + _size > capacity (doubling below 1 MiB, +1 MiB above), then copy,
wrapping when tail + len > capacity (buffer.cpp lines 20-38). -/
def Buffer.append (b : Buffer) (src : List Nat) : Buffer :=
  let len := src.length
  let b1 :=
    if b.capacity < len + b.size then
      b.resize (if len + b.size < 1048576 then (len + b.size) * 2
                else len + b.size + 1048576)
    else b
  if b1.capacity < b1.tail + len then
    let right := b1.capacity - b1.tail
    { b1 with
      tail := len - right, size := b1.size + len,
      data := write_bytes (write_bytes b1.data b1.tail (src.take right)) 0
                (src.drop right) }
  else
    { b1 with
      tail := b1.tail + len, size := b1.size + len,
      data := write_bytes b1.data b1.tail src }

/-- Buffer::consume(size_t len) — head advances mod capacity, size shrinks
(buffer.cpp lines 56-59).  Precondition of use: len ≤ size. -/
def Buffer.consume (b : Buffer) (len : Nat) : Buffer :=
  { b with head := (b.head + len) % b.capacity, size := b.size - len }

/-- Buffer::peek(dst, pos, len) — silently does nothing when pos ≥ _size
(so the C++ dst stays uninitialized: modelled as none); otherwise copies
len bytes starting at real_pos = (head + pos) % capacity, wrapping at
capacity (buffer.cpp lines 77-92). -/
def Buffer.peek (b : Buffer) (pos len : Nat) : Option (List Nat) :=
  if b.size ≤ pos then none
  else
    let real_pos := (b.head + pos) % b.capacity
    if real_pos + len ≤ b.capacity then
      some (read_range b.data real_pos len)
    else
      let right := b.capacity - real_pos
      some (read_range b.data real_pos right ++ read_range b.data 0 (len - right))

/-- Buffer::peek_u32(size_t pos) — peek 4 bytes into a uint32_t
(buffer.cpp lines 94-98).  When peek does nothing the C++ returns an
indeterminate value; the total embedding returns none there. -/
def Buffer.peek_u32 (b : Buffer) (pos : Nat) : Option Nat :=
  (b.peek pos 4).map le32

/-- Buffer::get_continuous_data(pos, &ptr, &size) — returns (offset into
data, length) of the span the source hands out; none models the nullptr
answer for pos ≥ _size (buffer.cpp lines 100-117).  The non-wrap branch
returns tail - real_pos, the wrap branch capacity - real_pos, exactly as in
the source. -/
def Buffer.get_continuous_data (b : Buffer) (pos : Nat) : Option (Nat × Nat) :=
  if b.size ≤ pos then none
  else
    let real_pos := (b.head + pos) % b.capacity
    if real_pos + b.size ≤ b.capacity then
      some (real_pos, b.tail - real_pos)
    else
      some (real_pos, b.capacity - real_pos)

/-- Buffer::insert(const uint8_t *data, size_t len, size_t pos) — overwrite
in place at logical offset pos; extends size/tail when writing past the
current end, growing to 2 * new size if the new size exceeds capacity
(buffer.cpp lines 136-178).  The source computes real_pos before the
possible resize and recomputes it afterwards; in both cases it equals
(head + pos) % capacity of the buffer being written. -/
def Buffer.insert (b : Buffer) (src : List Nat) (pos : Nat) : Buffer :=
  if b.size ≤ pos then b
  else
    let len := src.length
    let b1 :=
      if b.size < pos + len then
        { b with size := pos + len, tail := (b.head + (pos + len)) % b.capacity }
      else b
    let b2 := if b1.capacity < b1.size then b1.resize (b1.size * 2) else b1
    let real_pos := (b2.head + pos) % b2.capacity
    if b2.capacity < real_pos + len then
      let first_part := b2.capacity - real_pos
      { b2 with
        data := write_bytes (write_bytes b2.data real_pos (src.take first_part)) 0
                  (src.drop first_part) }
    else
      { b2 with data := write_bytes b2.data real_pos src }

/-- Ghost view: the logical byte of the buffer at offset i (i < size), the
cell at (head + i) mod capacity. -/
def Buffer.contents (b : Buffer) (i : Nat) : Nat :=
  b.data ((b.head + i) % b.capacity)

/-- The ring-buffer field invariant that actually holds on every reachable
state: head in range, size within capacity, and tail equal to
(head + size) mod capacity except that tail may be the unreduced value
`capacity` when the data ends exactly at the physical end of the array
(Buffer::append writes tail = capacity instead of 0 in that case). -/
def buf_inv (b : Buffer) : Prop :=
  b.head < b.capacity ∧ b.size ≤ b.capacity ∧ b.tail ≤ b.capacity ∧
    b.tail % b.capacity = (b.head + b.size) % b.capacity

instance (b : Buffer) : Decidable (buf_inv b) := by
  unfold buf_inv
  infer_instance

/-! ## Response framing (src/server.cpp lines 1014-1034) -/

/-- const size_t k_max_msg = 32 << 20 (server.cpp line 66). -/
def k_max_msg : Nat := 33554432

/-- The bytes out_err(out, ERR_TOO_BIG, "response is too big.") appends:
TAG_ERR (1), u32 code 2, u32 length 20, then the message bytes
(server.cpp lines 273-278 and 1025). -/
def err_too_big : List Nat :=
  1 :: (u32le 2 ++ u32le 20 ++ str_bytes "response is too big.")

/-- response_end(Buffer &out, size_t header) — when the body exceeds
k_max_msg the source calls out.resize(header + 4), appends the
ERR_TOO_BIG record, recomputes msg_size, and finally patches the 4-byte
length at position header via Buffer::insert (server.cpp lines 1021-1034).
The (uint32_t) cast of msg_size is the low 32 bits kept by u32le. -/
def response_end (out : Buffer) (header : Nat) : Buffer :=
  let msg_size := out.size - header - 4
  if k_max_msg < msg_size then
    let out2 := (out.resize (header + 4)).append err_too_big
    let msg_size2 := out2.size - header - 4
    out2.insert (u32le msg_size2) header
  else
    out.insert (u32le msg_size) header

/-! ## Response values

Every do_* handler emits self-delimiting tagged records into the response
buffer through out_nil / out_err / out_str / out_int / out_dbl / out_arr
(server.cpp lines 257-292).  The response channel is modelled as the list
of records a handler appends; the two-phase array header
(out_begin_arr / out_end_arr) is modelled by patching the arr record in
place, as the source patches the reserved count bytes. -/

inductive OutItem where
  | nil : OutItem
  | err : Nat → String → OutItem
  | str : String → OutItem
  | int : Int → OutItem
  | dbl : Int → OutItem
  | arr : Nat → OutItem
deriving DecidableEq

/-- Error code enum (server.cpp lines 215-220). -/
def ERR_UNKNOWN : Nat := 1
def ERR_TOO_BIG : Nat := 2
def ERR_BAD_TYP : Nat := 3
def ERR_BAD_ARG : Nat := 4

/-- out_begin_arr — append a TAG_ARR record with count 0 and remember its
position (server.cpp lines 283-288). -/
def out_begin_arr (out : List OutItem) : List OutItem × Nat :=
  (out ++ [OutItem.arr 0], out.length)

/-- out_end_arr — patch the count of the TAG_ARR record at ctx
(server.cpp lines 289-292). -/
def out_end_arr (out : List OutItem) (ctx : Nat) (n : Nat) : List OutItem :=
  out.set ctx (OutItem.arr n)

/-! ## Numeric argument parsing (server.cpp lines 448-452 and 506-510) -/

/-- Value of a nonempty all-digit string, else none. -/
def digits_val : List Char → Option Nat
  | [] => none
  | ds =>
    if ds.all Char.isDigit then
      some (ds.foldl (fun acc c => acc * 10 + (c.toNat - 48)) 0)
    else none

/-- str2int — strtoll in base 10 with the endp == end check
(server.cpp lines 448-452).  Modelled for the decimal-literal strings the
server handles: optional sign followed by digits; strtoll of the empty
string consumes nothing and the endp check then succeeds with value 0. -/
def str2int (s : String) : Option Int :=
  match s.data with
  | [] => some 0
  | '-' :: ds => (digits_val ds).map (fun n => -(n : Int))
  | '+' :: ds => (digits_val ds).map (fun n => (n : Int))
  | ds => (digits_val ds).map (fun n => (n : Int))

/-- str2dbl — strtod plus the isnan rejection (server.cpp lines 506-510).
Modelled fragment: scores are restricted to integral doubles (written as
decimal integer literals), which strtod parses exactly; such doubles
compare exactly like the integers they denote, and NaN never arises.
Non-numeric strings fail the endp check and parse to none. -/
def str2dbl (s : String) : Option Int := str2int s

/-! ## Sorted sets

Modelled from the spec: the zset container itself (zset.h / zset.cpp) is
not under src/; spec sections 1, 3 and 6 give its contract — a set of
(name, score) pairs, name unique, ordered by (score ascending, name
ascending by byte comparison), with insert / lookup / delete / seek_ge /
offset (rank navigation).  It is modelled as the sorted list of
(score, name) pairs the tree stores, seek_ge as the index of the first
pair ≥ the key, and offset as index arithmetic bounded by the size. -/

/-- Byte-lexicographic comparison of byte lists (memcmp order). -/
def bytes_lt : List Nat → List Nat → Bool
  | [], [] => false
  | [], _ :: _ => true
  | _ :: _, [] => false
  | a :: as_, b :: bs => if a < b then true else if b < a then false else bytes_lt as_ bs

/-- Strict (score, name) tuple order used by the zset tree. -/
def zless (a b : Int × String) : Bool :=
  if a.1 < b.1 then true
  else if b.1 < a.1 then false
  else bytes_lt (str_bytes a.2) (str_bytes b.2)

/-- A zset value: pairs sorted strictly ascending by zless, names unique. -/
abbrev ZSet := List (Int × String)

/-- zset_lookup(zset, name, len) — find the pair with the given name. -/
def zset_lookup (z : ZSet) (name : String) : Option (Int × String) :=
  z.find? (fun p => p.2 = name)

/-- Insert a pair into its sorted position. -/
def zset_sorted_add (p : Int × String) : ZSet → ZSet
  | [] => [p]
  | q :: r => if zless p q then p :: q :: r else q :: zset_sorted_add p r

/-- zset_insert(zset, name, len, score) — add a new pair or update the
score of an existing name; returns the updated zset and the added flag. -/
def zset_insert (z : ZSet) (score : Int) (name : String) : ZSet × Bool :=
  match zset_lookup z name with
  | some _ => (zset_sorted_add (score, name) (z.filter (fun p => p.2 ≠ name)), false)
  | none => (zset_sorted_add (score, name) z, true)

/-- zset_delete(zset, znode) — remove the pair with the given name. -/
def zset_delete (z : ZSet) (name : String) : ZSet :=
  z.filter (fun p => p.2 ≠ name)

/-- zset_seekge(zset, score, name, len) — index of the first pair ≥
(score, name) in tuple order, none when every pair is smaller. -/
def zset_seekge (z : ZSet) (score : Int) (name : String) : Option Nat :=
  z.findIdx? (fun p => ! zless p (score, name))

/-- znode_offset(node, offset) — rank navigation: move a valid index by a
signed offset, none when the start is none or the target is out of range. -/
def znode_offset (z : ZSet) (oi : Option Nat) (off : Int) : Option Nat :=
  match oi with
  | none => none
  | some i =>
    let j : Int := (i : Int) + off
    if 0 ≤ j ∧ j < (z.length : Int) then some j.toNat else none

/-! ## The value store (server.cpp lines 294-356)

Modelled from the spec where the container is external: the intrusive hash
table (hashtable.h) is not under src/; spec section 6 gives its contract
(insert / lookup / delete / size / foreach keyed by the entry key).  It is
modelled as a list of entries with unique keys, lookup scanning the list.
The TTL heap linkage (heap_idx plus the heap slot, kept in sync by the
back-pointer contract of spec sections 3 and 6) is modelled as the entry
field ttl : Option Nat holding the deadline in monotonic ms; heap_idx = -1
(no TTL) is ttl = none. -/

/-- Value type tags (server.cpp lines 295-299). -/
def T_STR : Nat := 1
def T_ZSET : Nat := 2

/-- struct Entry (server.cpp lines 302-312): key, type tag, the string
payload, the zset payload, and the TTL deadline (see the note above). -/
structure Entry where
  key : String
  etype : Nat
  str : String
  zset : ZSet
  ttl : Option Nat
deriving DecidableEq

/-- Global state visible to the dispatcher (server.cpp g_data, lines
94-116): the value store db, the AOF pending-write buffer (its byte
content), and the aof_enabled flag.  File descriptors, the idle list and
the connection table are outside the command semantics. -/
structure DbState where
  db : List Entry
  aofBuf : List Nat
  aofEnabled : Bool
deriving DecidableEq

/-- hm_lookup with entry_eq — find the entry with the given key. -/
def find_entry : List Entry → String → Option Entry
  | [], _ => none
  | e :: r, k => if e.key = k then some e else find_entry r k

/-- In-place update of the entry with the given key (the C++ mutates the
entry through the node pointer returned by hm_lookup). -/
def db_update : List Entry → String → (Entry → Entry) → List Entry
  | [], _, _ => []
  | e :: r, k, f => if e.key = k then f e :: r else e :: db_update r k f

/-- hm_delete with entry_eq — remove the entry with the given key. -/
def db_remove : List Entry → String → List Entry
  | [], _ => []
  | e :: r, k => if e.key = k then r else e :: db_remove r k

/-! ## Command handlers (server.cpp lines 358-837)

Each handler is a function of the command vector and the global state,
returning the updated state (where it mutates) and the list of response
records it appends.  Arguments are read with getD, matching the
arity-checked accesses cmd[1], cmd[2], ... of the source. -/

/-- do_get (server.cpp lines 358-374). -/
def do_get (cmd : List String) (st : DbState) : List OutItem :=
  match find_entry st.db (cmd.getD 1 "") with
  | none => [OutItem.nil]
  | some ent =>
    if ent.etype ≠ T_STR then [OutItem.err ERR_BAD_TYP "not a string value"]
    else [OutItem.str ent.str]

/-- do_set (server.cpp lines 376-399): update the string payload of an
existing string entry in place, or insert a fresh string entry. -/
def do_set (cmd : List String) (st : DbState) : DbState × List OutItem :=
  let k := cmd.getD 1 ""
  match find_entry st.db k with
  | some ent =>
    if ent.etype ≠ T_STR then (st, [OutItem.err ERR_BAD_TYP "a non-string value exists"])
    else ({ st with db := db_update st.db k (fun e => { e with str := cmd.getD 2 "" }) },
          [OutItem.nil])
  | none =>
    ({ st with db := { key := k, etype := T_STR, str := cmd.getD 2 "",
                       zset := [], ttl := none } :: st.db },
     [OutItem.nil])

/-- do_del (server.cpp lines 401-412); entry_del also detaches the TTL heap
item, which the ttl field model makes implicit. -/
def do_del (cmd : List String) (st : DbState) : DbState × List OutItem :=
  let k := cmd.getD 1 ""
  match find_entry st.db k with
  | some _ => ({ st with db := db_remove st.db k }, [OutItem.int 1])
  | none => (st, [OutItem.int 0])

/-- entry_set_ttl (server.cpp lines 435-446): a negative ttl removes the
deadline, a nonnegative one upserts now + ttl into the heap. -/
def entry_set_ttl (now : Nat) (ttl_ms : Int) (e : Entry) : Entry :=
  if ttl_ms < 0 then { e with ttl := none }
  else { e with ttl := some (now + ttl_ms.toNat) }

/-- do_expire — PEXPIRE key ttl_ms (server.cpp lines 455-471). -/
def do_expire (now : Nat) (cmd : List String) (st : DbState) : DbState × List OutItem :=
  match str2int (cmd.getD 2 "") with
  | none => (st, [OutItem.err ERR_BAD_ARG "expect int64"])
  | some ttl_ms =>
    let k := cmd.getD 1 ""
    match find_entry st.db k with
    | some _ => ({ st with db := db_update st.db k (entry_set_ttl now ttl_ms) },
                 [OutItem.int 1])
    | none => (st, [OutItem.int 0])

/-- do_ttl — PTTL key (server.cpp lines 474-492). -/
def do_ttl (now : Nat) (cmd : List String) (st : DbState) : List OutItem :=
  match find_entry st.db (cmd.getD 1 "") with
  | none => [OutItem.int (-2)]
  | some ent =>
    match ent.ttl with
    | none => [OutItem.int (-1)]
    | some expire_at =>
      [OutItem.int (if now < expire_at then ((expire_at - now : Nat) : Int) else 0)]

/-- do_keys (server.cpp lines 501-504); hash-table iteration order is
modelled as the list order of the store. -/
def do_keys (st : DbState) : List OutItem :=
  OutItem.arr st.db.length :: st.db.map (fun e => OutItem.str e.key)

/-- do_zadd — zadd zset score name (server.cpp lines 513-542). -/
def do_zadd (cmd : List String) (st : DbState) : DbState × List OutItem :=
  match str2dbl (cmd.getD 2 "") with
  | none => (st, [OutItem.err ERR_BAD_ARG "expect float"])
  | some score =>
    let k := cmd.getD 1 ""
    let name := cmd.getD 3 ""
    match find_entry st.db k with
    | none =>
      let zr := zset_insert [] score name
      ({ st with db := { key := k, etype := T_ZSET, str := "",
                         zset := zr.1, ttl := none } :: st.db },
       [OutItem.int (if zr.2 then 1 else 0)])
    | some ent =>
      if ent.etype ≠ T_ZSET then (st, [OutItem.err ERR_BAD_TYP "expect zset"])
      else
        let zr := zset_insert ent.zset score name
        ({ st with db := db_update st.db k (fun e => { e with zset := zr.1 }) },
         [OutItem.int (if zr.2 then 1 else 0)])

/-- expect_zset (server.cpp lines 760-772): a missing key is the empty
zset, a non-zset entry is the NULL answer (none). -/
def expect_zset (st : DbState) (k : String) : Option ZSet :=
  match find_entry st.db k with
  | none => some []
  | some ent => if ent.etype = T_ZSET then some ent.zset else none

/-- do_zrem — zrem zset name (server.cpp lines 775-787); the deletion
happens through the pointer into the entry, so the store is updated. -/
def do_zrem (cmd : List String) (st : DbState) : DbState × List OutItem :=
  let k := cmd.getD 1 ""
  match expect_zset st k with
  | none => (st, [OutItem.err ERR_BAD_TYP "expect zset"])
  | some z =>
    let name := cmd.getD 2 ""
    match zset_lookup z name with
    | some _ => ({ st with db := db_update st.db k (fun e => { e with zset := zset_delete e.zset name }) },
                 [OutItem.int 1])
    | none => (st, [OutItem.int 0])

/-- do_zscore — zscore zset name (server.cpp lines 790-799). -/
def do_zscore (cmd : List String) (st : DbState) : List OutItem :=
  match expect_zset st (cmd.getD 1 "") with
  | none => [OutItem.err ERR_BAD_TYP "expect zset"]
  | some z =>
    match zset_lookup z (cmd.getD 2 "") with
    | some p => [OutItem.dbl p.1]
    | none => [OutItem.nil]

/-- The output loop of do_zquery (server.cpp lines 829-835): while the
node is valid and n < limit, emit name and score, step to the successor,
n += 2.  The counter n counts flattened records, two per pair. -/
def zquery_emit (z : ZSet) (oi : Option Nat) (limit n : Int) : List OutItem :=
  match oi with
  | none => []
  | some i =>
    if _h : n < limit then
      match z.get? i with
      | none => []
      | some p => OutItem.str p.2 :: OutItem.dbl p.1 ::
          zquery_emit z (znode_offset z (some i) 1) limit (n + 2)
    else []
termination_by (limit - n).toNat
decreasing_by omega

/-- do_zquery — zquery zset score name offset limit
(server.cpp lines 802-837). -/
def do_zquery (cmd : List String) (st : DbState) : List OutItem :=
  match str2dbl (cmd.getD 2 "") with
  | none => [OutItem.err ERR_BAD_ARG "expect fp number"]
  | some score =>
    let name := cmd.getD 3 ""
    match str2int (cmd.getD 4 ""), str2int (cmd.getD 5 "") with
    | some offset, some limit =>
      match expect_zset st (cmd.getD 1 "") with
      | none => [OutItem.err ERR_BAD_TYP "expect zset"]
      | some z =>
        if limit ≤ 0 then [OutItem.arr 0]
        else
          let i0 := zset_seekge z score name
          let i1 := znode_offset z i0 offset
          let oc := out_begin_arr []
          let items := zquery_emit z i1 limit 0
          out_end_arr (oc.1 ++ items) oc.2 items.length
    | _, _ => [OutItem.err ERR_BAD_ARG "expect int"]

/-! ## AOF engine (server.cpp lines 841-941) -/

/-- One encoded string of an AOF frame: u32 length, then the bytes. -/
def encode_str (s : String) : List Nat := u32le (str_bytes s).length ++ str_bytes s

/-- The encoded strings of an AOF frame, in order. -/
def encode_strs : List String → List Nat
  | [] => []
  | s :: r => encode_str s ++ encode_strs r

/-- The full AOF frame of a command: u32 nstr, then the strings — the same
format parse_req reads (server.cpp lines 183-185 and 905). -/
def encode_cmd (cmd : List String) : List Nat := u32le cmd.length ++ encode_strs cmd

/-- aof_write_command (server.cpp lines 906-917): append the frame of a
nonempty command to the AOF buffer. -/
def aof_write_command (buf : List Nat) (cmd : List String) : List Nat :=
  if cmd.isEmpty then buf else buf ++ encode_cmd cmd

/-- aof_flush_and_sync (server.cpp lines 919-941) writes the contiguous
span of the AOF buffer to the log fd and consumes what the kernel
accepted.  The fd write is external I/O; the model takes the no-progress
execution (write returns EAGAIN / accepts 0 bytes), under which the state
is unchanged.  The claims under study concern only the buffer appends. -/
def aof_flush_and_sync (st : DbState) : DbState := st

/-- do_aof_rewrite (server.cpp lines 743-758): refused when AOF is off or
a rewrite is running; otherwise the synchronous rewrite walks the store
and rewrites the log file — pure file-system effects outside the model —
and replies INT 1.  aof_rewriting is false whenever the dispatcher runs
(the rewrite is synchronous), so that branch is not taken. -/
def do_aof_rewrite (st : DbState) : DbState × List OutItem :=
  if st.aofEnabled = false then (st, [OutItem.err ERR_BAD_ARG "AOF is not enabled"])
  else (aof_flush_and_sync st, [OutItem.int 1])

/-! ## The dispatcher (server.cpp lines 943-985) -/

/-- do_request: the command table.  Mutating commands (set, del, pexpire,
zadd, zrem) append their AOF frame before running the handler and flush
afterwards, both only when aof_enabled; read-only commands skip AOF.
now is the get_monotonic_msec clock value. -/
def do_request (now : Nat) (cmd : List String) (st : DbState) : DbState × List OutItem :=
  if cmd.length = 2 ∧ cmd.getD 0 "" = "get" then (st, do_get cmd st)
  else if cmd.length = 3 ∧ cmd.getD 0 "" = "set" then
    let st1 := if st.aofEnabled then { st with aofBuf := aof_write_command st.aofBuf cmd } else st
    (aof_flush_and_sync (do_set cmd st1).1, (do_set cmd st1).2)
  else if cmd.length = 2 ∧ cmd.getD 0 "" = "del" then
    let st1 := if st.aofEnabled then { st with aofBuf := aof_write_command st.aofBuf cmd } else st
    (aof_flush_and_sync (do_del cmd st1).1, (do_del cmd st1).2)
  else if cmd.length = 3 ∧ cmd.getD 0 "" = "pexpire" then
    let st1 := if st.aofEnabled then { st with aofBuf := aof_write_command st.aofBuf cmd } else st
    (aof_flush_and_sync (do_expire now cmd st1).1, (do_expire now cmd st1).2)
  else if cmd.length = 2 ∧ cmd.getD 0 "" = "pttl" then (st, do_ttl now cmd st)
  else if cmd.length = 1 ∧ cmd.getD 0 "" = "keys" then (st, do_keys st)
  else if cmd.length = 4 ∧ cmd.getD 0 "" = "zadd" then
    let st1 := if st.aofEnabled then { st with aofBuf := aof_write_command st.aofBuf cmd } else st
    (aof_flush_and_sync (do_zadd cmd st1).1, (do_zadd cmd st1).2)
  else if cmd.length = 3 ∧ cmd.getD 0 "" = "zrem" then
    let st1 := if st.aofEnabled then { st with aofBuf := aof_write_command st.aofBuf cmd } else st
    (aof_flush_and_sync (do_zrem cmd st1).1, (do_zrem cmd st1).2)
  else if cmd.length = 3 ∧ cmd.getD 0 "" = "zscore" then (st, do_zscore cmd st)
  else if cmd.length = 6 ∧ cmd.getD 0 "" = "zquery" then (st, do_zquery cmd st)
  else if cmd.length = 1 ∧ cmd.getD 0 "" = "bgrewriteaof" then do_aof_rewrite st
  else (st, [OutItem.err ERR_UNKNOWN "unknown command."])

/-! ## AOF replay (server.cpp lines 841-883)

The log file is a byte list read with fread semantics: an item read fails
when fewer bytes remain than requested, and a failing read leaves the
stream at end of file (the model drops the leftover bytes, which the next
read would fail on anyway). -/

/-- The inner for loop of load_aof_file (lines 863-875): read nstr strings
of the record, each a u32 length then the bytes.  Returns the strings read,
the remaining file, and whether the record was complete; a short read
breaks out with the partial command and an exhausted stream. -/
def read_record : Nat → List Nat → List String → List String × List Nat × Bool
  | 0, f, acc => (acc, f, true)
  | k + 1, f, acc =>
    if f.length < 4 then (acc, [], false)
    else
      let len := le32 (f.take 4)
      let f1 := f.drop 4
      if f1.length < len then (acc, [], false)
      else
        read_record k (f1.drop len)
          (acc ++ [String.mk ((f1.take len).map Char.ofNat)])

/-- The while loop of load_aof_file (lines 853-878): read u32 nstr (end of
log when it fails), abort when nstr > k_max_args = 200000, read the record
strings, and dispatch the command — also when the record was truncated,
exactly as the source falls through to do_request after the inner break.
Each iteration consumes at least 4 bytes, so the initial file length
bounds the number of iterations; fuel seeded with it makes the loop total
without changing its behaviour. -/
def load_loop (now : Nat) : Nat → List Nat → DbState → DbState
  | 0, _, st => st
  | fuel + 1, f, st =>
    if f.length < 4 then st
    else
      let nstr := le32 (f.take 4)
      if 200000 < nstr then st
      else
        let r := read_record nstr (f.drop 4) []
        load_loop now fuel r.2.1 (do_request now r.1 st).1

/-- load_aof_file (server.cpp lines 841-883): nothing to do when AOF is
off; otherwise disable AOF during the replay (suppressing the appends
do_request would make), run the loop, and restore the flag. -/
def load_aof_file (now : Nat) (f : List Nat) (st : DbState) : DbState :=
  if st.aofEnabled = false then st
  else
    let st1 := { st with aofEnabled := false }
    let st2 := load_loop now f.length f st1
    { st2 with aofEnabled := st.aofEnabled }

/-! ## Timer processing (server.cpp lines 1179-1208)

Modelled from the spec where the container is external: the binary
min-heap (heap.h) is not under src/; spec sections 3 and 6 give its
contract (array min-heap over deadlines with back-pointers kept in sync by
heap_update).  The heap is modelled as the multiset of deadlines it holds,
kept as a list sorted ascending so that heap[0] is the head; each loop
iteration deletes the expired minimum (hm_delete + entry_del, whose
entry_set_ttl(-1) removes heap slot 0 and re-heapifies). -/

/-- const size_t k_max_works = 2000 (server.cpp line 1193). -/
def k_max_works : Nat := 2000

/-- The TTL while loop of process_timers (lines 1196-1207): while the heap
minimum is expired, delete that key, then break when the post-incremented
counter check nworks++ >= k_max_works fires.  Returns the number of keys
removed from the store. -/
def process_timers_ttl_loop (now : Nat) : List Nat → Nat → Nat
  | [], _ => 0
  | d :: rest, nworks =>
    if d < now then
      1 + (if k_max_works ≤ nworks then 0 else process_timers_ttl_loop now rest (nworks + 1))
    else 0

/-- Number of keys one process_timers call removes from the value store,
given the sorted deadlines of the TTL heap and the current time. -/
def process_timers_expired (heap : List Nat) (now : Nat) : Nat :=
  process_timers_ttl_loop now heap 0

/-! ## Concrete states used by the individual theorems -/

/-- State whose key k holds a zset (for the set-on-wrong-type path). -/
def stC1 : DbState :=
  { db := [{ key := "k", etype := T_ZSET, str := "", zset := [(1, "m")], ttl := none }],
    aofBuf := [], aofEnabled := true }

/-- State for the AOF append witness: empty store, AOF on. -/
def stC1w : DbState := { db := [], aofBuf := [], aofEnabled := true }

/-- State whose key z holds the three-member zset (1,a) (1,b) (1,c). -/
def stC2 : DbState :=
  { db := [{ key := "z", etype := T_ZSET, str := "",
             zset := [(1, "a"), (1, "b"), (1, "c")], ttl := none }],
    aofBuf := [], aofEnabled := false }

/-- Oversized response buffer for the response_end bug: a body of
k_max_msg + 1 bytes behind a header at position 0. -/
def bufC3 : Buffer :=
  { head := 0, tail := 33554437, capacity := 33554437, size := 33554437,
    data := fun _ => 0 }

/-- AOF file whose single record claims nstr = 3 with strings del, k and a
truncated third length: the replay reads the partial command [del, k]. -/
def fileC5 : List Nat :=
  u32le 3 ++ (u32le 3 ++ str_bytes "del") ++ (u32le 1 ++ str_bytes "k") ++ [0, 0]

/-- Store holding the string key k that the truncated record deletes. -/
def stC5 : DbState :=
  { db := [{ key := "k", etype := T_STR, str := "v", zset := [], ttl := none }],
    aofBuf := [], aofEnabled := true }

/-- A complete single-record file (set a b) for the replay witness. -/
def fileC5w : List Nat := encode_cmd ["set", "a", "b"]

/-- Fresh default buffer filled exactly to capacity: after the append the
tail field is 1024 = capacity, not (head + size) % capacity = 0. -/
def bufC6 : Buffer := (Buffer.new 1024).append (List.replicate 1024 7)

/-- Small buffer about to grow: capacity 2 holding one byte. -/
def bufC7 : Buffer := (Buffer.new 2).append [7]

/-- Buffer(8) after appending 6 bytes and consuming 1: head = 1, size = 5,
tail = 6.  get_continuous_data(4) lands in the wrap branch and reports 3
bytes although only 1 logical byte remains. -/
def bufC8 : Buffer := ((Buffer.new 8).append [11, 12, 13, 14, 15, 16]).consume 1

/-- State with a string entry carrying a TTL, for the set-keeps-TTL witness. -/
def stC9 : DbState :=
  { db := [{ key := "k", etype := T_STR, str := "old", zset := [], ttl := some 500 }],
    aofBuf := [], aofEnabled := false }

/-! ## Specification-side definitions

These follow the wording of the claims, for comparison with the code-side
definitions above. -/

/-- Whether a command hits one of the five mutating dispatcher branches. -/
def is_mutating (cmd : List String) : Bool :=
  (cmd.length == 3 && cmd.getD 0 "" == "set") ||
  (cmd.length == 2 && cmd.getD 0 "" == "del") ||
  (cmd.length == 3 && cmd.getD 0 "" == "pexpire") ||
  (cmd.length == 4 && cmd.getD 0 "" == "zadd") ||
  (cmd.length == 3 && cmd.getD 0 "" == "zrem")

/-- The flattened output records of a list of (score, name) pairs: name
then score for each pair, in order. -/
def pairs_out : List (Int × String) → List OutItem
  | [] => []
  | (sc, nm) :: rest => OutItem.str nm :: OutItem.dbl sc :: pairs_out rest

/-- Specification-side selection of the pairs a zquery reply contains:
seek to the first pair ≥ (score, name), move by the signed offset (out of
range gives nothing), then take one pair per loop iteration — the loop
body runs while n < limit with n advancing by 2, hence
ceil(limit / 2) = (limit + 1) / 2 iterations at most. -/
def zquery_pairs (z : ZSet) (score : Int) (name : String) (offset limit : Int) :
    List (Int × String) :=
  match zset_seekge z score name with
  | none => []
  | some i =>
    let j : Int := (i : Int) + offset
    if j < 0 ∨ (z.length : Int) ≤ j then []
    else (z.drop j.toNat).take ((limit + 1).toNat / 2)

/-! ## General lemmas about the ring buffer fields -/

lemma resize_head (b : Buffer) (n : Nat) : (b.resize n).head = 0 := rfl

lemma resize_tail (b : Buffer) (n : Nat) : (b.resize n).tail = b.size := rfl

lemma resize_capacity (b : Buffer) (n : Nat) : (b.resize n).capacity = n := rfl

lemma resize_size (b : Buffer) (n : Nat) : (b.resize n).size = b.size := rfl

/-- Buffer::resize keeps the invariant whenever the new capacity is
positive and holds the stored bytes. -/
lemma resize_inv (b : Buffer) (n : Nat) (hn : b.size ≤ n) (h0 : 0 < n) :
    buf_inv (b.resize n) := by
  exact ⟨h0, hn, hn, by rw [resize_tail, resize_head, resize_size, resize_capacity, Nat.zero_add]⟩

/-- Buffer::consume keeps the invariant when it removes at most the
stored bytes. -/
lemma consume_inv (b : Buffer) (h : buf_inv b) (n : Nat) (hn : n ≤ b.size) :
    buf_inv (b.consume n) := by
  obtain ⟨h1, h2, h3, h4⟩ := h
  have hcap : 0 < b.capacity := lt_of_le_of_lt (Nat.zero_le _) h1
  refine ⟨Nat.mod_lt _ hcap, ?_, h3, ?_⟩
  · show b.size - n ≤ b.capacity
    omega
  · show b.tail % b.capacity = ((b.head + n) % b.capacity + (b.size - n)) % b.capacity
    rw [Nat.mod_add_mod]
    have e : b.head + n + (b.size - n) = b.head + b.size := by omega
    rw [e]
    exact h4

/-- Buffer::append keeps the invariant, for any payload. -/
lemma append_inv (b : Buffer) (src : List Nat) (h : buf_inv b) :
    buf_inv (b.append src) := by
  obtain ⟨h1, h2, h3, h4⟩ := h
  have hcap : 0 < b.capacity := lt_of_le_of_lt (Nat.zero_le _) h1
  simp only [Buffer.append]
  by_cases hc : b.capacity < src.length + b.size
  · rw [if_pos hc]
    set N := if src.length + b.size < 1048576 then (src.length + b.size) * 2
             else src.length + b.size + 1048576 with hNdef
    have hN : src.length + b.size ≤ N := by
      rw [hNdef]; split <;> omega
    have hN0 : 0 < N := by omega
    rw [if_neg (by rw [resize_capacity, resize_tail]; omega :
      ¬ (b.resize N).capacity < (b.resize N).tail + src.length)]
    refine ⟨?_, ?_, ?_, ?_⟩
    · show (0 : Nat) < N
      omega
    · show b.size + src.length ≤ N
      omega
    · show b.size + src.length ≤ N
      omega
    · show (b.size + src.length) % N = (0 + (b.size + src.length)) % N
      rw [Nat.zero_add]
  · rw [if_neg hc]
    by_cases hw : b.capacity < b.tail + src.length
    · rw [if_pos hw]
      refine ⟨h1, ?_, ?_, ?_⟩
      · show b.size + src.length ≤ b.capacity
        omega
      · show src.length - (b.capacity - b.tail) ≤ b.capacity
        omega
      · show (src.length - (b.capacity - b.tail)) % b.capacity
            = (b.head + (b.size + src.length)) % b.capacity
        have e1 : src.length - (b.capacity - b.tail) = b.tail + src.length - b.capacity := by
          omega
        rw [e1, ← Nat.mod_eq_sub_mod (by omega : b.capacity ≤ b.tail + src.length),
          ← Nat.mod_add_mod, h4, Nat.mod_add_mod, ← Nat.add_assoc]
    · rw [if_neg hw]
      refine ⟨h1, ?_, ?_, ?_⟩
      · show b.size + src.length ≤ b.capacity
        omega
      · show b.tail + src.length ≤ b.capacity
        omega
      · show (b.tail + src.length) % b.capacity
            = (b.head + (b.size + src.length)) % b.capacity
        rw [← Nat.mod_add_mod, h4, Nat.mod_add_mod, ← Nat.add_assoc]

/-- Buffer::insert keeps the invariant, for any payload and position. -/
lemma insert_inv (b : Buffer) (src : List Nat) (pos : Nat) (h : buf_inv b) :
    buf_inv (b.insert src pos) := by
  obtain ⟨h1, h2, h3, h4⟩ := h
  have hcap : 0 < b.capacity := lt_of_le_of_lt (Nat.zero_le _) h1
  simp only [Buffer.insert]
  by_cases hp : b.size ≤ pos
  · rw [if_pos hp]; exact ⟨h1, h2, h3, h4⟩
  · rw [if_neg hp]
    by_cases hx : b.size < pos + src.length
    · rw [if_pos hx]
      set R1 : Buffer := { b with size := pos + src.length, tail := (b.head + (pos + src.length)) % b.capacity } with hR1
      by_cases hcp : b.capacity < pos + src.length
      · rw [if_pos (show R1.capacity < R1.size from hcp)]
        have hres : buf_inv (R1.resize (R1.size * 2)) := by
          refine resize_inv _ _ ?_ ?_
          · show pos + src.length ≤ (pos + src.length) * 2
            omega
          · show 0 < (pos + src.length) * 2
            omega
        split
        · exact hres
        · exact hres
      · rw [if_neg (show ¬ R1.capacity < R1.size from hcp)]
        have hb1 : buf_inv R1 := by
          refine ⟨h1, ?_, ?_, ?_⟩
          · show pos + src.length ≤ b.capacity
            omega
          · show (b.head + (pos + src.length)) % b.capacity ≤ b.capacity
            exact le_of_lt (Nat.mod_lt _ hcap)
          · show (b.head + (pos + src.length)) % b.capacity % b.capacity
              = (b.head + (pos + src.length)) % b.capacity
            exact Nat.mod_mod_of_dvd _ dvd_rfl
        split
        · exact hb1
        · exact hb1
    · rw [if_neg hx]
      rw [if_neg (show ¬ b.capacity < b.size from not_lt.mpr h2)]
      split
      · exact ⟨h1, h2, h3, h4⟩
      · exact ⟨h1, h2, h3, h4⟩

/-! ## Claim C6 — RingBuffer invariant after every operation -/

set_option maxRecDepth 8192 in
/-- C6 counterexample: from a fresh default buffer (capacity 1024), a
single append of exactly 1024 bytes — a legal operation — leaves
tail = 1024 = capacity while (head + size) mod capacity = 0, so the
claimed invariant tail = (head + size) mod capacity fails on a reachable
state. -/
theorem c6_counterexample :
    bufC6.head = 0 ∧ bufC6.size = 1024 ∧ bufC6.capacity = 1024 ∧
    bufC6.tail = 1024 ∧ bufC6.tail ≠ (bufC6.head + bufC6.size) % bufC6.capacity := by
  refine ⟨rfl, rfl, rfl, rfl, by decide⟩

/-- C6 (amended): after append, consume (with n ≤ size), resize (to a
positive capacity holding the data) and insert, the weaker invariant
buf_inv holds: head < capacity, size ≤ capacity, tail ≤ capacity and
tail ≡ head + size (mod capacity) — tail may be the unreduced value
capacity itself when an append fills the buffer exactly to its physical
end, which is the one deviation from the claimed invariant. -/
theorem c6_invariant_preserved (b : Buffer) (h : buf_inv b) :
    (∀ src, buf_inv (b.append src)) ∧
    (∀ n, n ≤ b.size → buf_inv (b.consume n)) ∧
    (∀ c, 0 < c → b.size ≤ c → buf_inv (b.resize c)) ∧
    (∀ src pos, buf_inv (b.insert src pos)) :=
  ⟨fun src => append_inv b src h,
   fun n hn => consume_inv b h n hn,
   fun _c hc hsz => resize_inv b _ hsz hc,
   fun src pos => insert_inv b src pos h⟩

/-- C6 witness: the amended invariant checked on concrete operations on a
fresh 4-byte buffer. -/
theorem c6_witness :
    buf_inv ((Buffer.new 4).append [1, 2]) ∧
    buf_inv ((Buffer.new 4).consume 0) ∧
    buf_inv ((Buffer.new 4).resize 8) ∧
    buf_inv ((Buffer.new 4).insert [9] 0) :=
  ⟨(c6_invariant_preserved (Buffer.new 4) (by decide)).1 [1, 2],
   (c6_invariant_preserved (Buffer.new 4) (by decide)).2.1 0 (by decide),
   (c6_invariant_preserved (Buffer.new 4) (by decide)).2.2.1 8 (by decide) (by decide),
   (c6_invariant_preserved (Buffer.new 4) (by decide)).2.2.2 [9] 0⟩

/-! ## Claim C4 — expiration bound per process_timers call -/

/-- The TTL loop removes at most k_max_works + 1 - nworks further keys. -/
lemma ttl_loop_bound (now : Nat) (heap : List Nat) :
    ∀ nworks, nworks ≤ k_max_works →
      process_timers_ttl_loop now heap nworks ≤ k_max_works + 1 - nworks := by
  induction heap with
  | nil => intro k _; simp [process_timers_ttl_loop]
  | cons d rest ih =>
    intro k hk
    simp only [process_timers_ttl_loop]
    split
    · split
      · omega
      · have := ih (k + 1) (by omega)
        omega
    · omega

/-- On a heap of 2001 expired deadlines the loop removes m keys after
already having done nworks, as long as the budget is not exhausted. -/
lemma ttl_loop_replicate (now : Nat) (hnow : 0 < now) :
    ∀ m nworks, nworks + m ≤ k_max_works + 1 →
      process_timers_ttl_loop now (List.replicate m 0) nworks = m := by
  intro m
  induction m with
  | zero => intro k _; simp [process_timers_ttl_loop]
  | succ m ih =>
    intro k hk
    simp only [List.replicate, process_timers_ttl_loop]
    rw [if_pos hnow]
    by_cases hstop : k_max_works ≤ k
    · rw [if_pos hstop]
      have : m = 0 := by unfold k_max_works at hk hstop; omega
      omega
    · rw [if_neg hstop, ih (k + 1) (by omega)]
      omega

/-- C4 counterexample: with 2001 expired deadlines in the heap, one
process_timers call removes 2001 keys from the value store — more than the
claimed bound of 2000 (the post-increment in nworks++ >= k_max_works lets
one extra key through). -/
theorem c4_counterexample :
    process_timers_expired (List.replicate 2001 0) 1 = 2001 ∧
    k_max_works < process_timers_expired (List.replicate 2001 0) 1 := by
  have h := ttl_loop_replicate 1 (by omega) 2001 0 (by unfold k_max_works; omega)
  exact ⟨h, by rw [process_timers_expired, h]; unfold k_max_works; omega⟩

/-- C4 (amended): one process_timers call removes at most 2001 expired
keys from the value store — k_max_works + 1, one more than the claimed
2000, because the break condition nworks++ >= k_max_works tests the value
before the increment. -/
theorem c4_expire_bound (heap : List Nat) (now : Nat) :
    process_timers_expired heap now ≤ k_max_works + 1 := by
  have := ttl_loop_bound now heap 0 (by omega)
  simpa [process_timers_expired] using this

/-! ## Claim C8 — get_continuous_data span length -/

/-- C8: evaluation of Buffer::get_continuous_data at the failing input.
On Buffer(8) after appending 6 bytes and consuming 1 we have head = 1,
size = 5, tail = 6; for pos = 4 the call takes the wrap branch
(real_pos + size = 5 + 5 > 8) and reports a span of capacity - real_pos = 3
bytes at real_pos = 5, while only min(size - pos, capacity - real_pos) = 1
logical byte remains — the span the claim (and spec section 9) prescribes.
The code therefore hands out 2 bytes past the logical end of the data. -/
theorem c8_eval :
    bufC8.head = 1 ∧ bufC8.size = 5 ∧ bufC8.tail = 6 ∧ bufC8.capacity = 8 ∧
    bufC8.get_continuous_data 4 = some (5, 3) ∧
    min (bufC8.size - 4) (bufC8.capacity - (bufC8.head + 4) % bufC8.capacity) = 1 ∧
    (3 : Nat) ≠ 1 := by
  refine ⟨rfl, rfl, rfl, rfl, rfl, rfl, by decide⟩

/-! ## Claim C9 — set on an existing string key keeps the TTL -/

/-- Updating the entry found under a key rewrites exactly that entry when
the update keeps the key. -/
lemma find_entry_db_update (k : String) (f : Entry → Entry)
    (hf : ∀ x, (f x).key = x.key) :
    ∀ (db : List Entry) (e : Entry), find_entry db k = some e →
      find_entry (db_update db k f) k = some (f e) := by
  intro db
  induction db with
  | nil => intro e he; simp [find_entry] at he
  | cons e0 r ih =>
    intro e he
    by_cases hk : e0.key = k
    · rw [find_entry, if_pos hk] at he
      cases he
      rw [db_update, if_pos hk, find_entry, if_pos (by rw [hf]; exact hk)]
    · rw [find_entry, if_neg hk] at he
      rw [db_update, if_neg hk, find_entry, if_neg hk]
      exact ih e he

/-- C9: executing set k v on a state whose key k holds a STRING entry
replaces only the str payload: the entry found afterwards is the old entry
with str := v, so its TTL linkage (the ttl deadline standing for heap_idx
plus the heap slot) is untouched and a pending expiration still fires;
do_set never calls entry_set_ttl. -/
theorem c9_set_preserves_ttl (now : Nat) (st : DbState) (k v : String) (e : Entry)
    (he : find_entry st.db k = some e) (hstr : e.etype = T_STR) :
    find_entry ((do_request now ["set", k, v] st).1).db k = some { e with str := v } ∧
    (find_entry ((do_request now ["set", k, v] st).1).db k).map Entry.ttl = some e.ttl := by
  have hdb : ((do_request now ["set", k, v] st).1).db
      = db_update st.db k (fun x => { x with str := v }) := by
    simp only [do_request]
    rw [if_neg (by simp), if_pos (by simp)]
    cases hb : st.aofEnabled <;>
      simp only [Bool.false_eq_true, if_true, if_false, aof_flush_and_sync, do_set,
        List.getD, List.get?, Option.getD_some] <;>
      rw [he] <;> simp [hstr]
  rw [hdb, find_entry_db_update k (fun x => { x with str := v }) (fun x => rfl) st.db e he]
  exact ⟨rfl, rfl⟩

/-- C9 witness: on a concrete store where k is a string with deadline 500,
set k new keeps the deadline. -/
theorem c9_witness :
    find_entry ((do_request 0 ["set", "k", "new"] stC9).1).db "k"
      = some { key := "k", etype := T_STR, str := "new", zset := [], ttl := some 500 } := by
  have h := c9_set_preserves_ttl 0 stC9 "k" "new"
    { key := "k", etype := T_STR, str := "old", zset := [], ttl := some 500 }
    (by decide) (by decide)
  exact h.1

/-! ## Claim C3 — response_end and the 32 MiB cap -/

lemma u32le_length (n : Nat) : (u32le n).length = 4 := rfl

lemma err_too_big_length : err_too_big.length = 29 := by decide

/-- Fields of Buffer::append in the growth case (len + size > capacity):
capacity per the growth formula, head 0, contiguous data so tail = size =
old size + len. -/
lemma append_grow_fields (b : Buffer) (src : List Nat)
    (hc : b.capacity < src.length + b.size) :
    (b.append src).capacity
        = (if src.length + b.size < 1048576 then (src.length + b.size) * 2
           else src.length + b.size + 1048576) ∧
    (b.append src).head = 0 ∧
    (b.append src).size = b.size + src.length ∧
    (b.append src).tail = b.size + src.length := by
  simp only [Buffer.append]
  rw [if_pos hc]
  set N := if src.length + b.size < 1048576 then (src.length + b.size) * 2
           else src.length + b.size + 1048576 with hN
  have hNge : src.length + b.size ≤ N := by rw [hN]; split <;> omega
  rw [if_neg (show ¬ (b.resize N).capacity < (b.resize N).tail + src.length by
    rw [resize_capacity, resize_tail]; omega)]
  exact ⟨rfl, rfl, rfl, rfl⟩

/-- Fields of Buffer::insert when the write stays inside the stored data:
a pure overwrite, no field changes. -/
lemma insert_fields_overwrite (b : Buffer) (src : List Nat) (pos : Nat)
    (hpos : pos < b.size) (hfit : pos + src.length ≤ b.size)
    (hcap : b.size ≤ b.capacity) :
    (b.insert src pos).size = b.size ∧ (b.insert src pos).capacity = b.capacity ∧
    (b.insert src pos).head = b.head ∧ (b.insert src pos).tail = b.tail := by
  simp only [Buffer.insert]
  rw [if_neg (not_le.mpr hpos)]
  rw [if_neg (show ¬ b.size < pos + src.length by omega)]
  rw [if_neg (show ¬ b.capacity < b.size from not_lt.mpr hcap)]
  split
  · exact ⟨rfl, rfl, rfl, rfl⟩
  · exact ⟨rfl, rfl, rfl, rfl⟩

/-- C3: response_end does not truncate an oversized response.  The claim
(and spec) says the buffered tail is cut back to header + 4 and replaced
by one ERR_TOO_BIG record, which would leave size = header + 4 + 29; but
Buffer::resize only reallocates capacity and keeps every stored byte
(size unchanged — and the C++ memcpy copies size bytes into the
header + 4 byte allocation, a heap overflow), so response_end merely
appends the 29-byte error record on top of the oversized body: the final
size is the old size + 29 and the recomputed length field still exceeds
k_max_msg. -/
theorem c3_response_end_not_truncated (out : Buffer) (header m : Nat)
    (hsz : out.size = header + 4 + m) (hbig : k_max_msg < m) :
    (response_end out header).size = out.size + 29 ∧
    k_max_msg < (response_end out header).size - header - 4 := by
  have hmax : k_max_msg = 33554432 := rfl
  have hstep : response_end out header
      = ((out.resize (header + 4)).append err_too_big).insert
          (u32le (((out.resize (header + 4)).append err_too_big).size - header - 4))
          header := by
    simp only [response_end]
    rw [if_pos (show k_max_msg < out.size - header - 4 by omega)]
  have hgrow := append_grow_fields (out.resize (header + 4)) err_too_big
    (by rw [err_too_big_length, resize_capacity, resize_size]; omega)
  rw [err_too_big_length, resize_size] at hgrow
  have hsize2 : ((out.resize (header + 4)).append err_too_big).size = out.size + 29 :=
    hgrow.2.2.1
  have hcap2 : ((out.resize (header + 4)).append err_too_big).capacity
      = 29 + out.size + 1048576 := by
    rw [hgrow.1, if_neg (by omega)]
  have hins := insert_fields_overwrite ((out.resize (header + 4)).append err_too_big)
    (u32le (((out.resize (header + 4)).append err_too_big).size - header - 4)) header
    (by omega) (by rw [u32le_length]; omega) (by omega)
  rw [hstep, hins.1, hsize2]
  omega

/-- C3 witness: a response body of 33554433 bytes (one over the cap)
behind a header at 0 comes out 29 bytes bigger, still oversized. -/
theorem c3_witness :
    (response_end bufC3 0).size = bufC3.size + 29 ∧
    k_max_msg < (response_end bufC3 0).size - 0 - 4 :=
  c3_response_end_not_truncated bufC3 0 33554433 rfl (by decide)

/-! ## Claim C7 — growth formula and content preservation of append -/

/-- The three shapes a valid buffer can have: contiguous data
(tail = head + size), wrapped data (tail + capacity = head + size), or the
empty buffer parked with tail = capacity. -/
lemma inv_cases (b : Buffer) (h : buf_inv b) :
    b.tail = b.head + b.size ∨ b.tail + b.capacity = b.head + b.size ∨
    (b.tail = b.capacity ∧ b.head = 0 ∧ b.size = 0) := by
  obtain ⟨h1, h2, h3, h4⟩ := h
  rcases Nat.lt_or_ge (b.head + b.size) b.capacity with hlt | hge
  · rw [Nat.mod_eq_of_lt hlt] at h4
    rcases Nat.lt_or_ge b.tail b.capacity with ht | ht
    · rw [Nat.mod_eq_of_lt ht] at h4
      exact Or.inl h4
    · have htc : b.tail = b.capacity := le_antisymm h3 ht
      rw [htc, Nat.mod_self] at h4
      exact Or.inr (Or.inr ⟨htc, by omega, by omega⟩)
  · have hmod : (b.head + b.size) % b.capacity = b.head + b.size - b.capacity := by
      rw [Nat.mod_eq_sub_mod hge, Nat.mod_eq_of_lt (by omega)]
    rw [hmod] at h4
    rcases Nat.lt_or_ge b.tail b.capacity with ht | ht
    · rw [Nat.mod_eq_of_lt ht] at h4
      exact Or.inr (Or.inl (by omega))
    · have htc : b.tail = b.capacity := le_antisymm h3 ht
      rw [htc, Nat.mod_self] at h4
      exact Or.inl (by omega)

/-- Buffer::resize leaves every logical byte in place: the two memcpy
calls unwrap the data to the front of the new array. -/
lemma resize_contents (b : Buffer) (n : Nat) (h : buf_inv b) (hn : b.size ≤ n) :
    ∀ i, i < b.size → (b.resize n).contents i = b.contents i := by
  intro i hi
  have h1 := h.1
  have h2 := h.2.1
  have h3 := h.2.2.1
  have hcases := inv_cases b h
  have hiN : (0 + i) % n = i := by
    rw [Nat.zero_add, Nat.mod_eq_of_lt (by omega)]
  show (b.resize n).data ((0 + i) % n) = b.data ((b.head + i) % b.capacity)
  rw [hiN]
  simp only [Buffer.resize]
  by_cases hb : b.head < b.tail
  · rw [if_pos hb]
    show (if i < b.size then b.data (b.head + i) else 0) = b.data ((b.head + i) % b.capacity)
    rw [if_pos hi]
    rcases hcases with hc | hc | hc
    · rw [Nat.mod_eq_of_lt (by omega)]
    · omega
    · omega
  · rw [if_neg hb]
    have hble := not_lt.mp hb
    rcases hcases with hc | hc | hc
    · omega
    · show (if i < b.capacity - b.head then b.data (b.head + i)
          else if i < b.capacity - b.head + b.tail then b.data (i - (b.capacity - b.head))
          else 0) = b.data ((b.head + i) % b.capacity)
      by_cases hfirst : i < b.capacity - b.head
      · rw [if_pos hfirst, Nat.mod_eq_of_lt (by omega)]
      · rw [if_neg hfirst, if_pos (by omega)]
        have e : (b.head + i) % b.capacity = i - (b.capacity - b.head) := by
          rw [Nat.mod_eq_sub_mod (by omega), Nat.mod_eq_of_lt (by omega)]
          omega
        rw [e]
    · omega

/-- C7: when append must grow (size + len > capacity), the new capacity is
2 * (size + len) below 1 MiB and size + len + 1 MiB from there on, the
grown buffer is unwrapped (head = 0 and tail = size), and every byte that
was stored is preserved in order. -/
theorem c7_append_growth (b : Buffer) (src : List Nat) (hinv : buf_inv b)
    (hc : b.capacity < b.size + src.length) :
    (b.append src).capacity
        = (if b.size + src.length < 1048576 then (b.size + src.length) * 2
           else b.size + src.length + 1048576) ∧
    (b.append src).head = 0 ∧
    (b.append src).size = b.size + src.length ∧
    (b.append src).tail = (b.append src).size ∧
    (∀ i, i < b.size → (b.append src).contents i = b.contents i) := by
  have hc2 : b.capacity < src.length + b.size := by omega
  have hfld := append_grow_fields b src hc2
  have hlen1 : 1 ≤ src.length := by
    have := hinv.2.1
    omega
  set N := if src.length + b.size < 1048576 then (src.length + b.size) * 2
           else src.length + b.size + 1048576 with hN
  have hNge : src.length + b.size ≤ N := by rw [hN]; split <;> omega
  have hdata : (b.append src).data = write_bytes (b.resize N).data b.size src := by
    simp only [Buffer.append]
    rw [if_pos hc2]
    rw [if_neg (show ¬ (b.resize N).capacity < (b.resize N).tail + src.length by
      rw [resize_capacity, resize_tail]; omega)]
    exact rfl
  have hcontents : ∀ i, i < b.size → (b.append src).contents i = b.contents i := by
    intro i hi
    have hiN : (0 + i) % N = i := by
      rw [Nat.zero_add, Nat.mod_eq_of_lt (by omega)]
    have step1 : (b.append src).contents i = write_bytes (b.resize N).data b.size src i := by
      show (b.append src).data (((b.append src).head + i) % (b.append src).capacity)
          = write_bytes (b.resize N).data b.size src i
      rw [hdata, hfld.2.1, hfld.1, hiN]
    have step2 : write_bytes (b.resize N).data b.size src i = (b.resize N).data i := by
      show (if b.size ≤ i ∧ i < b.size + src.length then src.getD (i - b.size) 0
            else (b.resize N).data i) = (b.resize N).data i
      rw [if_neg (by omega)]
    have step3 : (b.resize N).data i = (b.resize N).contents i := by
      show (b.resize N).data i
          = (b.resize N).data (((b.resize N).head + i) % (b.resize N).capacity)
      rw [resize_head, resize_capacity, hiN]
    rw [step1, step2, step3]
    exact resize_contents b N hinv (by omega) i hi
  refine ⟨?_, hfld.2.1, hfld.2.2.1, ?_, hcontents⟩
  · rw [hfld.1, hN, Nat.add_comm src.length b.size]
  · rw [hfld.2.2.2, hfld.2.2.1]

/-- C7 witness: growing a 2-byte buffer holding one byte by a 2-byte
append doubles to capacity 6, unwraps, and keeps the stored byte. -/
theorem c7_witness :
    buf_inv bufC7 ∧ bufC7.capacity < bufC7.size + 2 ∧
    (bufC7.append [8, 9]).capacity = 6 ∧ (bufC7.append [8, 9]).head = 0 ∧
    (bufC7.append [8, 9]).tail = (bufC7.append [8, 9]).size ∧
    (bufC7.append [8, 9]).contents 0 = bufC7.contents 0 := by
  have h := c7_append_growth bufC7 [8, 9] (by decide) (by decide)
  refine ⟨by decide, by decide, ?_, h.2.1, h.2.2.2.1, h.2.2.2.2 0 (by decide)⟩
  rw [h.1]
  decide

/-! ## Claim C10 — peek_u32 totality and its call-site guard -/

/-- C10: Buffer::peek with pos ≥ size writes nothing, so peek_u32 returns
an indeterminate value — none in the total embedding (first part); under
the precondition pos + 4 ≤ size on a valid buffer, peek_u32 returns
exactly the four logical bytes at offset pos assembled little-endian
(second part); and at its call site in try_one_request, which returns
early unless size ≥ 4 and then calls peek_u32(0), the none branch is
unreachable (third part). -/
theorem c10_peek_u32_total :
    (∀ (b : Buffer) (pos : Nat), b.size ≤ pos → b.peek_u32 pos = none) ∧
    (∀ (b : Buffer) (pos : Nat), buf_inv b → pos + 4 ≤ b.size →
      b.peek_u32 pos = some (le32 [b.contents pos, b.contents (pos + 1),
        b.contents (pos + 2), b.contents (pos + 3)])) ∧
    (∀ b : Buffer, 4 ≤ b.size → (b.peek_u32 0).isSome = true) := by
  refine ⟨?_, ?_, ?_⟩
  · intro b pos h
    simp [Buffer.peek_u32, Buffer.peek, h]
  · intro b pos hinv h4
    obtain ⟨h1, h2, h3, _⟩ := hinv
    have hcap : 0 < b.capacity := lt_of_le_of_lt (Nat.zero_le _) h1
    have hcap4 : 4 ≤ b.capacity := by omega
    simp only [Buffer.peek_u32, Buffer.peek]
    rw [if_neg (show ¬ b.size ≤ pos by omega)]
    set R := (b.head + pos) % b.capacity with hR
    have hRlt : R < b.capacity := by rw [hR]; exact Nat.mod_lt _ hcap
    have helem : ∀ k, k < 4 → b.contents (pos + k) = b.data ((R + k) % b.capacity) := by
      intro k _hk
      show b.data ((b.head + (pos + k)) % b.capacity) = b.data ((R + k) % b.capacity)
      rw [hR, Nat.mod_add_mod, Nat.add_assoc]
    by_cases hb : R + 4 ≤ b.capacity
    · rw [if_pos hb]
      have hck : ∀ k, k < 4 → b.contents (pos + k) = b.data (R + k) := by
        intro k hk
        rw [helem k hk, Nat.mod_eq_of_lt (by omega)]
      have e0 : b.contents pos = b.data R := hck 0 (by omega)
      have e1 : b.contents (pos + 1) = b.data (R + 1) := hck 1 (by omega)
      have e2 : b.contents (pos + 2) = b.data (R + 2) := hck 2 (by omega)
      have e3 : b.contents (pos + 3) = b.data (R + 3) := hck 3 (by omega)
      show some (le32 (read_range b.data R 4))
          = some (le32 [b.contents pos, b.contents (pos + 1),
              b.contents (pos + 2), b.contents (pos + 3)])
      have l4 : read_range b.data R 4
          = [b.data R, b.data (R + 1), b.data (R + 2), b.data (R + 3)] := rfl
      rw [l4, e0, e1, e2, e3]
    · rw [if_neg hb]
      have hwk : ∀ k, k < 4 → b.capacity ≤ R + k →
          b.contents (pos + k) = b.data (R + k - b.capacity) := by
        intro k hk hle
        rw [helem k hk, Nat.mod_eq_sub_mod hle, Nat.mod_eq_of_lt (by omega)]
      have hck : ∀ k, k < 4 → R + k < b.capacity →
          b.contents (pos + k) = b.data (R + k) := by
        intro k hk hlt
        rw [helem k hk, Nat.mod_eq_of_lt hlt]
      have h123 : b.capacity - R = 1 ∨ b.capacity - R = 2 ∨ b.capacity - R = 3 := by
        omega
      rcases h123 with hcr | hcr | hcr
      · rw [hcr]
        have e0 : b.contents pos = b.data R := hck 0 (by omega) (by omega)
        have e1 : b.contents (pos + 1) = b.data 0 := by
          have h5 := hwk 1 (by omega) (by omega)
          rwa [show R + 1 - b.capacity = 0 from by omega] at h5
        have e2 : b.contents (pos + 2) = b.data 1 := by
          have h5 := hwk 2 (by omega) (by omega)
          rwa [show R + 2 - b.capacity = 1 from by omega] at h5
        have e3 : b.contents (pos + 3) = b.data 2 := by
          have h5 := hwk 3 (by omega) (by omega)
          rwa [show R + 3 - b.capacity = 2 from by omega] at h5
        show some (le32 (read_range b.data R 1 ++ read_range b.data 0 (4 - 1)))
            = some (le32 [b.contents pos, b.contents (pos + 1),
                b.contents (pos + 2), b.contents (pos + 3)])
        have l4 : read_range b.data R 1 ++ read_range b.data 0 (4 - 1)
            = [b.data R, b.data 0, b.data 1, b.data 2] := rfl
        rw [l4, e0, e1, e2, e3]
      · rw [hcr]
        have e0 : b.contents pos = b.data R := hck 0 (by omega) (by omega)
        have e1 : b.contents (pos + 1) = b.data (R + 1) := hck 1 (by omega) (by omega)
        have e2 : b.contents (pos + 2) = b.data 0 := by
          have h5 := hwk 2 (by omega) (by omega)
          rwa [show R + 2 - b.capacity = 0 from by omega] at h5
        have e3 : b.contents (pos + 3) = b.data 1 := by
          have h5 := hwk 3 (by omega) (by omega)
          rwa [show R + 3 - b.capacity = 1 from by omega] at h5
        show some (le32 (read_range b.data R 2 ++ read_range b.data 0 (4 - 2)))
            = some (le32 [b.contents pos, b.contents (pos + 1),
                b.contents (pos + 2), b.contents (pos + 3)])
        have l4 : read_range b.data R 2 ++ read_range b.data 0 (4 - 2)
            = [b.data R, b.data (R + 1), b.data 0, b.data 1] := rfl
        rw [l4, e0, e1, e2, e3]
      · rw [hcr]
        have e0 : b.contents pos = b.data R := hck 0 (by omega) (by omega)
        have e1 : b.contents (pos + 1) = b.data (R + 1) := hck 1 (by omega) (by omega)
        have e2 : b.contents (pos + 2) = b.data (R + 2) := hck 2 (by omega) (by omega)
        have e3 : b.contents (pos + 3) = b.data 0 := by
          have h5 := hwk 3 (by omega) (by omega)
          rwa [show R + 3 - b.capacity = 0 from by omega] at h5
        show some (le32 (read_range b.data R 3 ++ read_range b.data 0 (4 - 3)))
            = some (le32 [b.contents pos, b.contents (pos + 1),
                b.contents (pos + 2), b.contents (pos + 3)])
        have l4 : read_range b.data R 3 ++ read_range b.data 0 (4 - 3)
            = [b.data R, b.data (R + 1), b.data (R + 2), b.data 0] := rfl
        rw [l4, e0, e1, e2, e3]
  · intro b hb
    simp only [Buffer.peek_u32, Buffer.peek]
    rw [if_neg (show ¬ b.size ≤ 0 by omega)]
    split <;> rfl

/-- C10 witness: the three parts applied to the concrete buffer bufC8
(head 1, size 5): out-of-range peek gives none, an in-range peek returns
the logical bytes, and the try_one_request guard case is some. -/
theorem c10_witness :
    Buffer.peek_u32 bufC8 7 = none ∧
    Buffer.peek_u32 bufC8 0 = some (le32 [bufC8.contents 0, bufC8.contents (0 + 1),
      bufC8.contents (0 + 2), bufC8.contents (0 + 3)]) ∧
    (Buffer.peek_u32 bufC8 0).isSome = true :=
  ⟨c10_peek_u32_total.1 bufC8 7 (by decide),
   c10_peek_u32_total.2.1 bufC8 0 (by decide) (by decide),
   c10_peek_u32_total.2.2 bufC8 (by decide)⟩

/-! ## Claim C1 — when the AOF frame is appended -/

lemma do_set_aof (cmd : List String) (st : DbState) :
    ((do_set cmd st).1).aofBuf = st.aofBuf ∧
    ((do_set cmd st).1).aofEnabled = st.aofEnabled := by
  simp only [do_set]
  split
  · split
    · exact ⟨rfl, rfl⟩
    · exact ⟨rfl, rfl⟩
  · exact ⟨rfl, rfl⟩

lemma do_del_aof (cmd : List String) (st : DbState) :
    ((do_del cmd st).1).aofBuf = st.aofBuf ∧
    ((do_del cmd st).1).aofEnabled = st.aofEnabled := by
  simp only [do_del]
  split
  · exact ⟨rfl, rfl⟩
  · exact ⟨rfl, rfl⟩

lemma do_expire_aof (now : Nat) (cmd : List String) (st : DbState) :
    ((do_expire now cmd st).1).aofBuf = st.aofBuf ∧
    ((do_expire now cmd st).1).aofEnabled = st.aofEnabled := by
  simp only [do_expire]
  split
  · exact ⟨rfl, rfl⟩
  · split
    · exact ⟨rfl, rfl⟩
    · exact ⟨rfl, rfl⟩

lemma do_zadd_aof (cmd : List String) (st : DbState) :
    ((do_zadd cmd st).1).aofBuf = st.aofBuf ∧
    ((do_zadd cmd st).1).aofEnabled = st.aofEnabled := by
  simp only [do_zadd]
  split
  · exact ⟨rfl, rfl⟩
  · split
    · exact ⟨rfl, rfl⟩
    · split
      · exact ⟨rfl, rfl⟩
      · exact ⟨rfl, rfl⟩

lemma do_zrem_aof (cmd : List String) (st : DbState) :
    ((do_zrem cmd st).1).aofBuf = st.aofBuf ∧
    ((do_zrem cmd st).1).aofEnabled = st.aofEnabled := by
  simp only [do_zrem]
  split
  · exact ⟨rfl, rfl⟩
  · split
    · exact ⟨rfl, rfl⟩
    · exact ⟨rfl, rfl⟩

lemma list_length_eq_four {α : Type} {l : List α} (h : l.length = 4) :
    ∃ a b c d, l = [a, b, c, d] := by
  rcases l with _ | ⟨a, _ | ⟨b, _ | ⟨c, _ | ⟨d, rest⟩⟩⟩⟩ <;> simp_all

/-- C1 (amended): for every mutating command (set, del, pexpire, zadd,
zrem) dispatched through do_request with AOF enabled, the AOF frame is
appended to the AOF buffer unconditionally — before the handler runs and
regardless of whether the command succeeds, so a command that replies with
an error still appends its frame. -/
theorem c1_aof_frame_always_appended (now : Nat) (st : DbState) (cmd : List String)
    (hen : st.aofEnabled = true) (hm : is_mutating cmd = true) :
    ((do_request now cmd st).1).aofBuf = st.aofBuf ++ encode_cmd cmd := by
  simp only [is_mutating, Bool.or_eq_true, Bool.and_eq_true, beq_iff_eq] at hm
  rcases hm with (((⟨hl, hh⟩ | ⟨hl, hh⟩) | ⟨hl, hh⟩) | ⟨hl, hh⟩) | ⟨hl, hh⟩
  · obtain ⟨a, b, c, rfl⟩ := List.length_eq_three.mp hl
    simp only [List.getD, List.get?, Option.getD_some] at hh
    subst hh
    simp [do_request, hen, aof_flush_and_sync, do_set_aof, aof_write_command]
  · obtain ⟨a, b, rfl⟩ := List.length_eq_two.mp hl
    simp only [List.getD, List.get?, Option.getD_some] at hh
    subst hh
    simp [do_request, hen, aof_flush_and_sync, do_del_aof, aof_write_command]
  · obtain ⟨a, b, c, rfl⟩ := List.length_eq_three.mp hl
    simp only [List.getD, List.get?, Option.getD_some] at hh
    subst hh
    simp [do_request, hen, aof_flush_and_sync, do_expire_aof, aof_write_command]
  · obtain ⟨a, b, c, d, rfl⟩ := list_length_eq_four hl
    simp only [List.getD, List.get?, Option.getD_some] at hh
    subst hh
    simp [do_request, hen, aof_flush_and_sync, do_zadd_aof, aof_write_command]
  · obtain ⟨a, b, c, rfl⟩ := List.length_eq_three.mp hl
    simp only [List.getD, List.get?, Option.getD_some] at hh
    subst hh
    simp [do_request, hen, aof_flush_and_sync, do_zrem_aof, aof_write_command]

/-- C1 counterexample: dispatching set k v with AOF enabled on a store
where k holds a zset makes the command reply with an error, yet its AOF
frame has been appended to the AOF buffer (the dispatcher appends before
executing, unconditionally) — contradicting the claim that an error reply
leaves the AOF buffer unchanged. -/
theorem c1_counterexample :
    (do_request 0 ["set", "k", "v"] stC1).2
        = [OutItem.err ERR_BAD_TYP "a non-string value exists"] ∧
    ((do_request 0 ["set", "k", "v"] stC1).1).aofBuf ≠ stC1.aofBuf := by
  exact ⟨by decide, by decide⟩

/-- C1 witness: del x on an empty store with AOF enabled appends exactly
the frame of the command. -/
theorem c1_witness :
    is_mutating ["del", "x"] = true ∧ stC1w.aofEnabled = true ∧
    ((do_request 0 ["del", "x"] stC1w).1).aofBuf = stC1w.aofBuf ++ encode_cmd ["del", "x"] :=
  ⟨by decide, rfl, c1_aof_frame_always_appended 0 stC1w ["del", "x"] rfl (by decide)⟩

/-! ## Claim C5 — AOF replay of truncated and corrupt logs -/

lemma load_loop_nil (now fuel : Nat) (st : DbState) :
    load_loop now fuel [] st = st := by
  cases fuel with
  | zero => rfl
  | succ n => simp [load_loop]

lemma load_loop_short (now fuel : Nat) (f : List Nat) (st : DbState)
    (h : f.length < 4) : load_loop now fuel f st = st := by
  cases fuel with
  | zero => rfl
  | succ n => simp only [load_loop]; rw [if_pos h]

/-- With AOF disabled, do_request never touches the AOF buffer or flag. -/
lemma do_request_aof_off (now : Nat) (cmd : List String) (st : DbState)
    (hoff : st.aofEnabled = false) :
    ((do_request now cmd st).1).aofBuf = st.aofBuf ∧
    ((do_request now cmd st).1).aofEnabled = false := by
  unfold do_request
  rw [hoff]
  simp only [if_neg Bool.false_ne_true]
  by_cases h1 : cmd.length = 2 ∧ cmd.getD 0 "" = "get"
  · rw [if_pos h1]; exact ⟨rfl, hoff⟩
  rw [if_neg h1]
  by_cases h2 : cmd.length = 3 ∧ cmd.getD 0 "" = "set"
  · rw [if_pos h2]; exact ⟨(do_set_aof cmd st).1, (do_set_aof cmd st).2.trans hoff⟩
  rw [if_neg h2]
  by_cases h3 : cmd.length = 2 ∧ cmd.getD 0 "" = "del"
  · rw [if_pos h3]; exact ⟨(do_del_aof cmd st).1, (do_del_aof cmd st).2.trans hoff⟩
  rw [if_neg h3]
  by_cases h4 : cmd.length = 3 ∧ cmd.getD 0 "" = "pexpire"
  · rw [if_pos h4]; exact ⟨(do_expire_aof now cmd st).1, (do_expire_aof now cmd st).2.trans hoff⟩
  rw [if_neg h4]
  by_cases h5 : cmd.length = 2 ∧ cmd.getD 0 "" = "pttl"
  · rw [if_pos h5]; exact ⟨rfl, hoff⟩
  rw [if_neg h5]
  by_cases h6 : cmd.length = 1 ∧ cmd.getD 0 "" = "keys"
  · rw [if_pos h6]; exact ⟨rfl, hoff⟩
  rw [if_neg h6]
  by_cases h7 : cmd.length = 4 ∧ cmd.getD 0 "" = "zadd"
  · rw [if_pos h7]; exact ⟨(do_zadd_aof cmd st).1, (do_zadd_aof cmd st).2.trans hoff⟩
  rw [if_neg h7]
  by_cases h8 : cmd.length = 3 ∧ cmd.getD 0 "" = "zrem"
  · rw [if_pos h8]; exact ⟨(do_zrem_aof cmd st).1, (do_zrem_aof cmd st).2.trans hoff⟩
  rw [if_neg h8]
  by_cases h9 : cmd.length = 3 ∧ cmd.getD 0 "" = "zscore"
  · rw [if_pos h9]; exact ⟨rfl, hoff⟩
  rw [if_neg h9]
  by_cases h10 : cmd.length = 6 ∧ cmd.getD 0 "" = "zquery"
  · rw [if_pos h10]; exact ⟨rfl, hoff⟩
  rw [if_neg h10]
  by_cases h11 : cmd.length = 1 ∧ cmd.getD 0 "" = "bgrewriteaof"
  · rw [if_pos h11]
    simp [do_aof_rewrite, hoff]
  rw [if_neg h11]
  exact ⟨rfl, hoff⟩

/-- The replay loop with AOF off preserves the AOF buffer and flag. -/
lemma load_loop_aof_off (now : Nat) :
    ∀ (fuel : Nat) (f : List Nat) (st : DbState), st.aofEnabled = false →
      (load_loop now fuel f st).aofBuf = st.aofBuf ∧
      (load_loop now fuel f st).aofEnabled = false := by
  intro fuel
  induction fuel with
  | zero => intro f st h; exact ⟨rfl, h⟩
  | succ n ih =>
    intro f st h
    simp only [load_loop]
    by_cases h4 : f.length < 4
    · rw [if_pos h4]; exact ⟨rfl, h⟩
    · rw [if_neg h4]
      by_cases hn : 200000 < le32 (f.take 4)
      · rw [if_pos hn]; exact ⟨rfl, h⟩
      · rw [if_neg hn]
        have hreq := do_request_aof_off now
          (read_record (le32 (f.take 4)) (f.drop 4) []).1 st h
        have hrec := ih (read_record (le32 (f.take 4)) (f.drop 4) []).2.1
          ((do_request now (read_record (le32 (f.take 4)) (f.drop 4) []).1 st).1) hreq.2
        exact ⟨by rw [hrec.1, hreq.1], hrec.2⟩

/-- C5 (amended): during AOF replay at startup, end of file inside the
nstr word is end-of-log (first part); a record with nstr > 200000 aborts
replay immediately, leaving the store in its partial state (second part);
end of file inside a record's lengths or string bytes also terminates
replay, but the strings read before the truncation are still dispatched
through do_request as one final (partial) command — the source falls
through to do_request after the inner break — so a crafted log can mutate
the store with a command that was never fully read, though for logs
written by this server the partial prefix never matches a command arity
(third part); and AOF appends are suppressed for every command dispatched
during replay: the AOF buffer and flag are unchanged by load_aof_file
(fourth part). -/
theorem c5_replay_behavior :
    (∀ (now : Nat) (f : List Nat) (st : DbState), st.aofEnabled = true →
      f.length < 4 → load_aof_file now f st = st) ∧
    (∀ (now : Nat) (f : List Nat) (st : DbState), 4 ≤ f.length →
      200000 < le32 (f.take 4) → load_loop now f.length f st = st) ∧
    (∀ (now : Nat) (f : List Nat) (st : DbState) (cmd : List String), 4 ≤ f.length →
      le32 (f.take 4) ≤ 200000 →
      read_record (le32 (f.take 4)) (f.drop 4) [] = (cmd, [], false) →
      load_loop now f.length f st = (do_request now cmd st).1) ∧
    (∀ (now : Nat) (f : List Nat) (st : DbState),
      (load_aof_file now f st).aofBuf = st.aofBuf ∧
      (load_aof_file now f st).aofEnabled = st.aofEnabled) := by
  refine ⟨?_, ?_, ?_, ?_⟩
  · intro now f st hen h4
    simp only [load_aof_file]
    rw [if_neg (by rw [hen]; simp)]
    rw [load_loop_short now f.length f _ h4]
  · intro now f st h4 hn
    obtain ⟨fl, hfl⟩ : ∃ k, f.length = k + 1 := ⟨f.length - 1, by omega⟩
    rw [hfl]
    simp only [load_loop]
    rw [if_neg (by omega), if_pos hn]
  · intro now f st cmd h4 hn hread
    obtain ⟨fl, hfl⟩ : ∃ k, f.length = k + 1 := ⟨f.length - 1, by omega⟩
    rw [hfl]
    simp only [load_loop]
    rw [if_neg (by omega), if_neg (by omega), hread]
    exact load_loop_nil now fl _
  · intro now f st
    simp only [load_aof_file]
    by_cases hen : st.aofEnabled = false
    · rw [if_pos hen]
      exact ⟨rfl, rfl⟩
    · rw [if_neg hen]
      have h := load_loop_aof_off now f.length f { st with aofEnabled := false } rfl
      exact ⟨h.1, rfl⟩


/-- C5 counterexample: replaying a log whose single (trailing, truncated)
record declares nstr = 3 with strings del and k and then hits end of file
inside the third length word deletes the key k from the store — the
truncated record was dispatched as the command [del, k], altering the
store although no command was fully read before the truncation. -/
theorem c5_counterexample :
    find_entry stC5.db "k" ≠ none ∧ stC5.aofEnabled = true ∧
    find_entry (load_aof_file 0 fileC5 stC5).db "k" = none := by
  exact ⟨by decide, rfl, by decide⟩

/-- C5 witness: the four parts of the replay behaviour exercised on
concrete inputs — a 2-byte log is end-of-log; the truncated del record is
dispatched as the partial command; a replay leaves the AOF buffer alone. -/
theorem c5_witness :
    load_aof_file 0 [0, 0] stC5 = stC5 ∧
    load_loop 0 fileC5.length fileC5 stC1w = (do_request 0 ["del", "k"] stC1w).1 ∧
    (load_aof_file 0 fileC5w stC5).aofBuf = stC5.aofBuf :=
  ⟨c5_replay_behavior.1 0 [0, 0] stC5 rfl (by decide),
   c5_replay_behavior.2.2.1 0 fileC5 stC1w ["del", "k"] (by decide) (by decide) (by decide),
   (c5_replay_behavior.2.2.2 0 fileC5w stC5).1⟩

/-! ## Claim C2 — the zquery reply -/

lemma pairs_out_length (ps : List (Int × String)) :
    (pairs_out ps).length = 2 * ps.length := by
  induction ps with
  | nil => rfl
  | cons p rest ih =>
    obtain ⟨sc, nm⟩ := p
    simp only [pairs_out, List.length_cons, ih]
    omega

/-- The zquery output loop started at or past the end of the set emits
nothing (matching an empty take). -/
lemma zquery_emit_oob (z : ZSet) (j : Nat) (limit n : Int) (hj : z.length ≤ j) :
    zquery_emit z (some j) limit n
      = pairs_out ((z.drop j).take ((limit - n + 1).toNat / 2)) := by
  simp only [zquery_emit]
  by_cases hl : n < limit
  · rw [dif_pos hl, List.get?_eq_getElem?, List.getElem?_eq_none hj,
      List.drop_eq_nil_of_le hj, List.take_nil]
    rfl
  · rw [dif_neg hl]
    have hB : ((limit - n + 1).toNat / 2) = 0 := by omega
    rw [hB]
    rfl

/-- The zquery output loop emits exactly the pairs of the set from index j
on, bounded by ceil((limit - n) / 2) further iterations — the loop body
advances the flat counter n by 2 per pair while n < limit. -/
lemma zquery_emit_eq_aux (z : ZSet) :
    ∀ (fuel j : Nat) (limit n : Int), z.length - j ≤ fuel →
      zquery_emit z (some j) limit n
        = pairs_out ((z.drop j).take ((limit - n + 1).toNat / 2)) := by
  intro fuel
  induction fuel with
  | zero => intro j limit n hf; exact zquery_emit_oob z j limit n (by omega)
  | succ fuel ih =>
    intro j limit n hf
    by_cases hjl : j < z.length
    · by_cases hl : n < limit
      · obtain ⟨⟨sc, nm⟩, hp⟩ : ∃ p, z.get? j = some p :=
          ⟨z.get ⟨j, hjl⟩, List.get?_eq_some.mpr ⟨hjl, rfl⟩⟩
        simp only [zquery_emit]
        rw [dif_pos hl, hp]
        show OutItem.str nm :: OutItem.dbl sc ::
            zquery_emit z (znode_offset z (some j) 1) limit (n + 2)
          = pairs_out ((z.drop j).take ((limit - n + 1).toNat / 2))
        have hget : z[j] = (sc, nm) := by
          obtain ⟨h, hgg⟩ := List.get?_eq_some.mp hp
          rw [← List.get_eq_getElem z ⟨j, h⟩]
          exact hgg
        have hdrop : z.drop j = (sc, nm) :: z.drop (j + 1) := by
          rw [List.drop_eq_getElem_cons hjl, hget]
        have hB : ((limit - n + 1).toNat / 2) = ((limit - (n + 2) + 1).toNat / 2) + 1 := by
          omega
        rw [hdrop, hB, List.take_succ_cons]
        simp only [pairs_out]
        refine congrArg (List.cons (OutItem.str nm))
          (congrArg (List.cons (OutItem.dbl sc)) ?_)
        by_cases hnext : j + 1 < z.length
        · have hoff : znode_offset z (some j) 1 = some (j + 1) := by
            simp only [znode_offset]
            rw [if_pos (by omega)]
            exact congrArg some (by omega)
          rw [hoff]
          exact ih (j + 1) limit (n + 2) (by omega)
        · have hoff : znode_offset z (some j) 1 = none := by
            simp only [znode_offset]
            rw [if_neg (by omega)]
          rw [hoff, show z.drop (j + 1) = [] from List.drop_eq_nil_of_le (by omega),
            List.take_nil]
          simp [zquery_emit, pairs_out]
      · simp only [zquery_emit]
        rw [dif_neg hl]
        have hB : ((limit - n + 1).toNat / 2) = 0 := by omega
        rw [hB]
        rfl
    · exact zquery_emit_oob z j limit n (by omega)

/-- The full zquery reply: dispatching a zquery command with parseable
score, offset and limit replies per the code path — type error first, then
the limit ≤ 0 empty array, then the flattened pairs selected by
zquery_pairs, with the patched array count 2 * pairs. -/
lemma zquery_reply_eq (now : Nat) (st : DbState) (key s name o l : String)
    (score offset limit : Int)
    (hs : str2dbl s = some score) (ho : str2int o = some offset)
    (hlim : str2int l = some limit) :
    do_request now ["zquery", key, s, name, o, l] st
      = (st,
        match expect_zset st key with
        | none => [OutItem.err ERR_BAD_TYP "expect zset"]
        | some z =>
          if limit ≤ 0 then [OutItem.arr 0]
          else
            OutItem.arr (2 * (zquery_pairs z score name offset limit).length)
              :: pairs_out (zquery_pairs z score name offset limit)) := by
  have hdisp : do_request now ["zquery", key, s, name, o, l] st
      = (st, do_zquery ["zquery", key, s, name, o, l] st) := by
    unfold do_request
    rw [if_neg (by simp), if_neg (by simp), if_neg (by simp), if_neg (by simp),
      if_neg (by simp), if_neg (by simp), if_neg (by simp), if_neg (by simp),
      if_neg (by simp), if_pos (by simp)]
  rw [hdisp]
  refine congrArg (Prod.mk st) ?_
  simp only [do_zquery, List.getD, List.get?, Option.getD_some, hs, ho, hlim]
  cases hz : expect_zset st key with
  | none => rfl
  | some z =>
    show (if limit ≤ 0 then [OutItem.arr 0]
        else out_end_arr ((out_begin_arr []).1
            ++ zquery_emit z (znode_offset z (zset_seekge z score name) offset) limit 0)
          (out_begin_arr []).2
          (zquery_emit z (znode_offset z (zset_seekge z score name) offset) limit 0).length)
      = (if limit ≤ 0 then [OutItem.arr 0]
        else OutItem.arr (2 * (zquery_pairs z score name offset limit).length)
          :: pairs_out (zquery_pairs z score name offset limit))
    by_cases hl0 : limit ≤ 0
    · rw [if_pos hl0, if_pos hl0]
    · rw [if_neg hl0, if_neg hl0]
      have hitems : zquery_emit z (znode_offset z (zset_seekge z score name) offset) limit 0
          = pairs_out (zquery_pairs z score name offset limit) := by
        unfold zquery_pairs
        cases hseek : zset_seekge z score name with
        | none => simp [znode_offset, zquery_emit, pairs_out]
        | some i =>
          simp only [znode_offset]
          by_cases hrange : 0 ≤ (i : Int) + offset ∧ (i : Int) + offset < (z.length : Int)
          · rw [if_pos hrange,
              if_neg (show ¬ ((i : Int) + offset < 0 ∨ (z.length : Int) ≤ (i : Int) + offset)
                by omega),
              zquery_emit_eq_aux z z.length ((i : Int) + offset).toNat limit 0 (by omega)]
            norm_num
          · rw [if_neg hrange,
              if_pos (show (i : Int) + offset < 0 ∨ (z.length : Int) ≤ (i : Int) + offset
                by omega)]
            simp [zquery_emit, pairs_out]
      simp only [out_begin_arr, out_end_arr, List.nil_append, List.cons_append,
        List.length_nil, List.set_cons_zero]
      rw [hitems, pairs_out_length]

/-- C2 (amended): for every zquery command with a parseable score, offset
and limit: a key holding a non-zset value replies ERR(BAD_TYP) (checked
before the limit test); otherwise — a missing key acting as the empty
zset — limit ≤ 0 yields an empty ARR; otherwise the reply is a flattened
ARR whose count field is twice the number of emitted pairs, containing up
to ceil(limit / 2) (name, score) pairs — NOT up to limit pairs, since the
loop counter n counts flattened entries and advances by 2 per pair while
n < limit — starting from the element at index seek_ge(score, name) +
offset when that index is in range, in (score ascending, name ascending)
order as stored. -/
theorem c2_zquery_reply (now : Nat) (st : DbState) (key s name o l : String)
    (score offset limit : Int)
    (hs : str2dbl s = some score) (ho : str2int o = some offset)
    (hlim : str2int l = some limit) :
    do_request now ["zquery", key, s, name, o, l] st
      = (st,
        match expect_zset st key with
        | none => [OutItem.err ERR_BAD_TYP "expect zset"]
        | some z =>
          if limit ≤ 0 then [OutItem.arr 0]
          else
            OutItem.arr (2 * (zquery_pairs z score name offset limit).length)
              :: pairs_out (zquery_pairs z score name offset limit)) :=
  zquery_reply_eq now st key s name o l score offset limit hs ho hlim

/-- C2 counterexample: on the zset z = (1,a) (1,b) (1,c), the command
zquery z 1 "" 0 3 has limit 3 and three available pairs, so the claim
("up to limit pairs") promises 3 pairs; the code emits only 2 pairs (the
flat counter reaches 4 ≥ 3 after two pairs) with array count 4. -/
theorem c2_counterexample :
    (do_request 0 ["zquery", "z", "1", "", "0", "3"] stC2).2
      = [OutItem.arr 4, OutItem.str "a", OutItem.dbl 1, OutItem.str "b", OutItem.dbl 1] ∧
    (do_request 0 ["zquery", "z", "1", "", "0", "3"] stC2).2
      ≠ [OutItem.arr 6, OutItem.str "a", OutItem.dbl 1, OutItem.str "b", OutItem.dbl 1,
         OutItem.str "c", OutItem.dbl 1] := by
  have h := zquery_reply_eq 0 stC2 "z" "1" "" "0" "3" 1 0 3 (by decide) (by decide) (by decide)
  rw [h]
  exact ⟨by decide, by decide⟩

/-- C2 witness: zquery z 1 "" 0 2 on the same set emits one pair (count
field 2): ceil(2 / 2) = 1 pair starting at the seek position. -/
theorem c2_witness :
    do_request 0 ["zquery", "z", "1", "", "0", "2"] stC2
      = (stC2, [OutItem.arr 2, OutItem.str "a", OutItem.dbl 1]) := by
  have h := c2_zquery_reply 0 stC2 "z" "1" "" "0" "2" 1 0 2 (by decide) (by decide) (by decide)
  rw [h]
  decide
